import Mathlib

/-!
Shallow embedding of the PsycheScore score-computation / ledger-update engine.

The authoritative code is the Compact contract `psychescore.compact` given in
`src/psychescore/docs/MIDNIGHT_NETWORK_MIGRATION_PLAN.md` (circuits
`computeAndStoreScore`, `verifyScore`, `updateMLModel`, ledger declarations
`user_scores`, `score_commitments`, `ml_model_hash`, `survey_responses`),
together with `calculateCommitment` and `generateProof` from
`src/psychescore-mn/src/utils/generateProof.js`.

Numeric values are embedded as `Int` (exact arithmetic): the contract's own
range assertions `assert(computed_score >= 0); assert(computed_score <= 100)`
treat scores as signed exact quantities, matching the requirement of exact
integer/field arithmetic with no floating-point drift.  Identities (wallet
addresses) and model hashes are embedded as `Nat` (opaque equality-comparable
keys).  Compact `assert` failures are embedded as typed errors in `Except`.
-/

namespace PsycheScore

/-- The error taxonomy of the engine: wrong-length inputs, an out-of-range
computed score, and a commitment that disagrees with the recomputation. -/
inductive PSError where
  | ShapeError
  | RangeError
  | CommitmentMismatch
  deriving DecidableEq, Repr

/-- The on-chain ledger state: the four `export ledger` declarations of
`psychescore.compact` — per-identity score map, per-identity commitment map,
the singleton model-hash cell, and the declared (never written) raw-responses
map. -/
structure LedgerState where
  user_scores : Nat → Option Int
  score_commitments : Nat → Option Int
  ml_model_hash : Int
  survey_responses : Nat → Option (List Int)

/-- The arguments of one `computeAndStoreScore` invocation:
`(encrypted_responses, koios_features, ml_model_weights, ml_model_bias,
wallet_address, response_commitment)`. -/
structure Args where
  responses : List Int
  features : List Int
  weights : List Int
  bias : Int
  identity : Nat
  commitment : Int
  deriving DecidableEq

/-- `calculateCommitment` from `generateProof.js`:
`responses.reduce((sum, response) => sum + response, 0)` — the same fold the
circuit performs in its `calculated_commitment` loop. -/
def calculateCommitment (responses : List Int) : Int :=
  responses.foldl (fun sum response => sum + response) 0

/-- The score loops of the circuit: starting from `ml_model_bias`,
`for i in 0..50` add `encrypted_responses[i] * ml_model_weights[i]`, then
`for i in 0..4` add `koios_features[i] * ml_model_weights[50 + i]`,
accumulated left-to-right in index order. -/
def scoreCompute (weights : List Int) (bias : Int)
    (responses features : List Int) : Int :=
  let s := (List.range 50).foldl
    (fun acc i => acc + responses.getD i 0 * weights.getD i 0) bias
  (List.range 4).foldl
    (fun acc i => acc + features.getD i 0 * weights.getD (50 + i) 0) s

/-- The commitment check of the circuit:
`assert(calculated_commitment == response_commitment)`. -/
def commitmentOk (responses : List Int) (commitment : Int) : Bool :=
  calculateCommitment responses == commitment

/-- Modelled from the spec: the dispatch boundary rejects wrong-length input
vectors with a `ShapeError` before any computation (sizes 50/4/54).  In the
Compact source this check is implicit in the fixed-size array types
`[Field; 50]`, `[Field; 4]`, `[Field; 54]` of `computeAndStoreScore`; no
explicit dispatcher code exists under `src/`, so the check is embedded here
as the spec describes it. -/
def shapeOk (a : Args) : Bool :=
  a.responses.length == 50 && a.features.length == 4 && a.weights.length == 54

/-- The circuit `computeAndStoreScore`: shape gate, then the score loops,
then the two range assertions (`>= 0`, then `<= 100`), then the commitment
recomputation and equality assertion, then the two ledger writes
`user_scores[wallet_address] := score` and
`score_commitments[wallet_address] := response_commitment`.  A failed
assertion aborts the invocation with its typed error and performs no write. -/
def computeAndStoreScore (a : Args) (st : LedgerState) :
    Except PSError (LedgerState × Int) :=
  if !shapeOk a then .error .ShapeError
  else
    let score := scoreCompute a.weights a.bias a.responses a.features
    if score < 0 then .error .RangeError
    else if 100 < score then .error .RangeError
    else if !commitmentOk a.responses a.commitment then
      .error .CommitmentMismatch
    else .ok
      ({ st with
          user_scores := fun i =>
            if i = a.identity then some score else st.user_scores i,
          score_commitments := fun i =>
            if i = a.identity then some a.commitment
            else st.score_commitments i },
        score)

/-- The circuit `verifyScore`: reads `user_scores[wallet_address]` and
returns whether the stored score equals `expected_score`; a VACANT identity
(no stored score) compares against an absent value and yields `false`. -/
def verifyScore (st : LedgerState) (identity : Nat) (expected : Int) : Bool :=
  match st.user_scores identity with
  | some s => s == expected
  | none => false

/-- The circuit `updateMLModel`: overwrites the singleton `ml_model_hash`
cell (the admin-signature verification is external to this core). -/
def updateModelHash (st : LedgerState) (newHash : Int) : LedgerState :=
  { st with ml_model_hash := newHash }

/-- The operations an external caller can dispatch. -/
inductive Op where
  | compute (a : Args)
  | verify (identity : Nat) (expected : Int)
  | updateHash (newHash : Int)

/-- One dispatched invocation as a ledger-state transition: a failed
`computeAndStoreScore` reverts to the prior state (fallible transcript
discarded), `verifyScore` is a pure read, `updateMLModel` writes the hash
cell. -/
def step (st : LedgerState) (op : Op) : LedgerState :=
  match op with
  | .compute a =>
      match computeAndStoreScore a st with
      | .ok (st', _) => st'
      | .error _ => st
  | .verify _ _ => st
  | .updateHash h => updateModelHash st h

/-- Running a sequence of dispatched operations from a state. -/
def run (ops : List Op) (st : LedgerState) : LedgerState :=
  ops.foldl step st

/-- The initial ledger: every identity VACANT, hash cell zero, no stored
responses. -/
def initState : LedgerState :=
  { user_scores := fun _ => none
    score_commitments := fun _ => none
    ml_model_hash := 0
    survey_responses := fun _ => none }

/-- Whether an invocation result is a successful commit. -/
def succeeds (r : Except PSError (LedgerState × Int)) : Bool :=
  match r with
  | .ok _ => true
  | .error _ => false

/-- The transaction context the generated JavaScript passes along with each
circuit call (`transactionContext: { timestamp: Date.now() }`); the circuit
body never reads it. -/
structure TransactionContext where
  timestamp : Nat

/-- The reproducible execution record returned by a circuit call: the
invocation arguments and the result (the committed score, or the typed
failure). -/
structure ProofRecord where
  input : Args
  output : Except PSError Int

/-- The record packaged for one invocation. -/
def proofRecord (a : Args) (st : LedgerState) : ProofRecord :=
  { input := a, output := (computeAndStoreScore a st).map Prod.snd }

/-- Evaluating a `computeAndStoreScore` call in the plain evaluator: the
generated JavaScript executes the same circuit body; the transaction context
is threaded through but unread. -/
def runPlain (_ctx : TransactionContext) (a : Args) (st : LedgerState) :
    Except PSError (LedgerState × Int) :=
  computeAndStoreScore a st

/-- Evaluating the same call in the proof-generating evaluator: the identical
circuit body, additionally packaging the proof record (`{ result, proofData }`
in the generated JavaScript). -/
def runProving (_ctx : TransactionContext) (a : Args) (st : LedgerState) :
    Except PSError (LedgerState × Int) × ProofRecord :=
  (computeAndStoreScore a st, proofRecord a st)

/-- The score stored for `identity` by the most recent successful
`computeAndStoreScore` in `ops` (run from `st`), if any. -/
def lastWrite (ops : List Op) (st : LedgerState) (identity : Nat) :
    Option Int :=
  match ops with
  | [] => none
  | op :: rest =>
      let here : Option Int :=
        match op with
        | .compute a =>
            match computeAndStoreScore a st with
            | .ok (_, sc) => if a.identity = identity then some sc else none
            | .error _ => none
        | _ => none
      match lastWrite rest (step st op) identity with
      | some s => some s
      | none => here

/-- The spec's closed-form score formula:
`bias + Σ_{i=0..49} responses[i]*weights[i] + Σ_{j=0..3} features[j]*weights[50+j]`,
stated with `Finset.sum` to be compared against the circuit's left-to-right
accumulation. -/
def specScore (weights : List Int) (bias : Int)
    (responses features : List Int) : Int :=
  bias + (∑ i ∈ Finset.range 50, responses.getD i 0 * weights.getD i 0)
    + (∑ j ∈ Finset.range 4, features.getD j 0 * weights.getD (50 + j) 0)

/-- A well-shaped example invocation: fifty responses of 1, four features of
0, fifty-four weights of 1, bias 0 — score 50, true commitment 50. -/
def exampleOk : Args :=
  { responses := List.replicate 50 1
    features := List.replicate 4 0
    weights := List.replicate 54 1
    bias := 0
    identity := 3
    commitment := 50 }

/-- The spec's mismatch example: the same inputs with commitment 49. -/
def exampleMismatch : Args := { exampleOk with commitment := 49 }

/-- Weights all 3: the score is 150 (out of range) and the supplied
commitment 49 also disagrees with the true commitment 50. -/
def exampleOutOfRange : Args :=
  { exampleOk with weights := List.replicate 54 3, commitment := 49 }

/-- A wrongly shaped invocation: a single survey response. -/
def exampleBadShape : Args := { exampleOk with responses := [1] }

/-- The range invariant over committed entries: every OCCUPIED ledger entry
holds a score in [0,100]. -/
def ScoreInv (st : LedgerState) : Prop :=
  ∀ identity s, st.user_scores identity = some s → 0 ≤ s ∧ s ≤ 100

theorem foldl_add_range (g : Nat → Int) (b : Int) (n : Nat) :
    (List.range n).foldl (fun acc i => acc + g i) b
      = b + ∑ i ∈ Finset.range n, g i := by
  induction n with
  | zero => simp
  | succ n ih =>
      rw [List.range_succ, List.foldl_append, ih, Finset.sum_range_succ]
      simp [add_assoc]

theorem foldl_add_eq_sum (l : List Int) :
    ∀ b : Int, l.foldl (fun s r => s + r) b = b + l.sum := by
  induction l with
  | nil => intro b; simp
  | cons a t ih => intro b; simp [ih, add_assoc]

theorem calculateCommitment_eq_sum (l : List Int) :
    calculateCommitment l = l.sum := by
  simpa using foldl_add_eq_sum l 0

theorem sum_set (l : List Int) :
    ∀ (i : Nat) (v : Int), i < l.length →
      (l.set i v).sum = l.sum - l.getD i 0 + v := by
  induction l with
  | nil => intro i v h; simp at h
  | cons a t ih =>
      intro i v h
      cases i with
      | zero => simp [List.set]; ring
      | succ i =>
          have ht : i < t.length := by simpa using h
          simp [List.set, ih i v ht]
          ring

theorem scoreCompute_eq_specScore (w : List Int) (b : Int) (r f : List Int) :
    scoreCompute w b r f = specScore w b r f := by
  unfold scoreCompute specScore
  rw [foldl_add_range, foldl_add_range]

/-- What a successful invocation guarantees: the score passed both range
assertions, it is the circuit's accumulated value, the commitment check
passed, and the posterior state is the prior state with exactly the two
per-identity writes. -/
theorem compute_ok_spec (a : Args) (st : LedgerState) {st' : LedgerState}
    {sc : Int} (h : computeAndStoreScore a st = .ok (st', sc)) :
    shapeOk a = true ∧ 0 ≤ sc ∧ sc ≤ 100 ∧
    sc = scoreCompute a.weights a.bias a.responses a.features ∧
    commitmentOk a.responses a.commitment = true ∧
    st'.user_scores
      = (fun i => if i = a.identity then some sc else st.user_scores i) ∧
    st'.score_commitments
      = (fun i => if i = a.identity then some a.commitment
          else st.score_commitments i) ∧
    st'.ml_model_hash = st.ml_model_hash ∧
    st'.survey_responses = st.survey_responses := by
  simp only [computeAndStoreScore] at h
  split_ifs at h with h1 h2 h3 h4
  · simp only [Except.ok.injEq, Prod.mk.injEq] at h
    obtain ⟨hst, hsc⟩ := h
    subst hsc
    subst hst
    refine ⟨by simpa using h1, by omega, by omega, rfl, by simpa using h4,
      rfl, rfl, rfl, rfl⟩

/-- A failed invocation leaves the ledger untouched. -/
theorem compute_error_step (a : Args) (st : LedgerState) {e : PSError}
    (h : computeAndStoreScore a st = .error e) :
    step st (.compute a) = st := by
  simp [step, h]

/-- A wrongly shaped invocation fails with `ShapeError`. -/
theorem compute_shape_error (a : Args) (st : LedgerState)
    (h : shapeOk a = false) :
    computeAndStoreScore a st = .error .ShapeError := by
  simp [computeAndStoreScore, h]

/-- A well-shaped invocation whose accumulated score is out of range fails
with `RangeError`, whatever the supplied commitment. -/
theorem compute_range_error (a : Args) (st : LedgerState)
    (hsh : shapeOk a = true)
    (h : scoreCompute a.weights a.bias a.responses a.features < 0
      ∨ 100 < scoreCompute a.weights a.bias a.responses a.features) :
    computeAndStoreScore a st = .error .RangeError := by
  simp only [computeAndStoreScore, hsh, Bool.not_true, Bool.false_eq_true,
    if_false]
  rcases h with h | h
  · rw [if_pos h]
  · rw [if_neg (by omega), if_pos h]

/-- A well-shaped invocation whose score is in range but whose commitment
check fails aborts with `CommitmentMismatch`. -/
theorem compute_mismatch (a : Args) (st : LedgerState)
    (hsh : shapeOk a = true)
    (h0 : 0 ≤ scoreCompute a.weights a.bias a.responses a.features)
    (h100 : scoreCompute a.weights a.bias a.responses a.features ≤ 100)
    (hcm : commitmentOk a.responses a.commitment = false) :
    computeAndStoreScore a st = .error .CommitmentMismatch := by
  simp only [computeAndStoreScore, hsh, hcm, Bool.not_true, Bool.not_false,
    Bool.false_eq_true, if_false, if_true]
  rw [if_neg (by omega), if_neg (by omega)]

/-- Each dispatched operation preserves the range invariant. -/
theorem step_preserves_ScoreInv (st : LedgerState) (op : Op)
    (h : ScoreInv st) : ScoreInv (step st op) := by
  cases op with
  | verify i e => exact h
  | updateHash nh => exact fun i s hs => h i s hs
  | compute a =>
      cases hc : computeAndStoreScore a st with
      | error e => rw [compute_error_step a st hc]; exact h
      | ok p =>
          obtain ⟨st', sc⟩ := p
          obtain ⟨-, hlo, hhi, -, -, hus, -, -, -⟩ := compute_ok_spec a st hc
          intro i s hs
          have hstep : step st (.compute a) = st' := by simp [step, hc]
          rw [hstep] at hs
          simp only [hus] at hs
          by_cases hi : i = a.identity
          · rw [if_pos hi] at hs
            cases hs
            exact ⟨hlo, hhi⟩
          · rw [if_neg hi] at hs
            exact h i s hs

/-- The invariant is preserved along any run. -/
theorem run_preserves_ScoreInv (ops : List Op) :
    ∀ st : LedgerState, ScoreInv st → ScoreInv (run ops st) := by
  induction ops with
  | nil => exact fun st h => h
  | cons op rest ih =>
      exact fun st h => ih (step st op) (step_preserves_ScoreInv st op h)

/-- The stored score for an identity after a run is the score of the most
recent successful write in the run, or the prior stored score when the run
never successfully wrote that identity. -/
theorem run_user_scores (ops : List Op) :
    ∀ (st : LedgerState) (identity : Nat),
      (run ops st).user_scores identity
        = match lastWrite ops st identity with
          | some s => some s
          | none => st.user_scores identity := by
  induction ops with
  | nil => intro st identity; rfl
  | cons op rest ih =>
      intro st identity
      show (run rest (step st op)).user_scores identity = _
      rw [ih (step st op) identity]
      cases hlw : lastWrite rest (step st op) identity with
      | some s => simp [lastWrite, hlw]
      | none =>
          simp only [lastWrite, hlw]
          cases op with
          | verify i e => rfl
          | updateHash nh => rfl
          | compute a =>
              cases hc : computeAndStoreScore a st with
              | error e => simp [step, hc]
              | ok p =>
                  obtain ⟨st', sc⟩ := p
                  obtain ⟨-, -, -, -, -, hus, -, -, -⟩ :=
                    compute_ok_spec a st hc
                  have hstep : step st (.compute a) = st' := by
                    simp [step, hc]
                  rw [hstep, hus]
                  simp only [hc]
                  by_cases hid : a.identity = identity
                  · simp [hid]
                  · have hid' : ¬identity = a.identity :=
                      fun hh => hid hh.symm
                    simp [hid, hid']

/-- C1: for every well-shaped input (50 responses, 4 features, 54 weights),
the circuit's left-to-right accumulated score equals
`bias + Σ_{i=0..49} responses[i]*weights[i] + Σ_{j=0..3} features[j]*weights[50+j]`,
and when that value falls outside [0,100] the invocation fails with
`RangeError` and no score is committed — never a clamped or corrected one. -/
theorem claim1_score_formula_and_range (a : Args) (st : LedgerState)
    (h50 : a.responses.length = 50) (hf4 : a.features.length = 4)
    (h54 : a.weights.length = 54) :
    scoreCompute a.weights a.bias a.responses a.features
      = specScore a.weights a.bias a.responses a.features
    ∧ ((specScore a.weights a.bias a.responses a.features < 0
        ∨ 100 < specScore a.weights a.bias a.responses a.features) →
        computeAndStoreScore a st = .error .RangeError
        ∧ step st (.compute a) = st) := by
  have hs := scoreCompute_eq_specScore a.weights a.bias a.responses a.features
  refine ⟨hs, fun hout => ?_⟩
  have hsh : shapeOk a = true := by simp [shapeOk, h50, hf4, h54]
  have herr : computeAndStoreScore a st = .error .RangeError :=
    compute_range_error a st hsh (by rw [hs]; exact hout)
  exact ⟨herr, compute_error_step a st herr⟩

theorem claim1_witness :
    exampleOutOfRange.responses.length = 50
    ∧ scoreCompute exampleOutOfRange.weights exampleOutOfRange.bias
        exampleOutOfRange.responses exampleOutOfRange.features
      = specScore exampleOutOfRange.weights exampleOutOfRange.bias
        exampleOutOfRange.responses exampleOutOfRange.features
    ∧ computeAndStoreScore exampleOutOfRange initState
      = .error PSError.RangeError := by
  have h := claim1_score_formula_and_range exampleOutOfRange initState
    (by rfl) (by rfl) (by rfl)
  exact ⟨by rfl, h.1, (h.2 (Or.inr (by rw [← h.1]; decide))).1⟩

/-- C2: every failing invocation of `computeAndStoreScore` leaves the ledger
exactly as it was — in particular an identity that was VACANT before the
call is still VACANT after it. -/
theorem claim2_failure_reverts (a : Args) (st : LedgerState) (e : PSError)
    (h : computeAndStoreScore a st = .error e) :
    step st (.compute a) = st
    ∧ (st.user_scores a.identity = none →
        (step st (.compute a)).user_scores a.identity = none) := by
  have hs := compute_error_step a st h
  exact ⟨hs, fun hv => by rw [hs]; exact hv⟩

theorem claim2_witness :
    computeAndStoreScore exampleMismatch initState
      = .error PSError.CommitmentMismatch
    ∧ step initState (.compute exampleMismatch) = initState
    ∧ (step initState (.compute exampleMismatch)).user_scores
        exampleMismatch.identity = none := by
  have h := claim2_failure_reverts exampleMismatch initState
    .CommitmentMismatch (by rfl)
  exact ⟨by rfl, h.1, h.2 (by rfl)⟩

/-- C3: `computeAndStoreScore` is deterministic — the proof-generating
evaluator and the plain evaluator run the identical circuit on the same
inputs, so two invocations with identical arguments (at any transaction
timestamps) produce identical results and identical proof-record output. -/
theorem claim3_determinism (ctx₁ ctx₂ : TransactionContext) (a : Args)
    (st : LedgerState) :
    runProving ctx₁ a st = runProving ctx₂ a st
    ∧ runPlain ctx₁ a st = (runProving ctx₂ a st).1
    ∧ (runProving ctx₁ a st).2.output = (runProving ctx₂ a st).2.output :=
  ⟨rfl, rfl, rfl⟩

/-- C4: in every ledger state reachable from the all-VACANT initial state by
any sequence of dispatched operations, every OCCUPIED entry holds a score in
[0,100]. -/
theorem claim4_range_invariant (ops : List Op) (identity : Nat) (s : Int)
    (h : (run ops initState).user_scores identity = some s) :
    0 ≤ s ∧ s ≤ 100 :=
  run_preserves_ScoreInv ops initState
    (fun _ _ hs => Option.noConfusion hs) identity s h

theorem claim4_witness :
    (run [Op.compute exampleOk] initState).user_scores 3 = some 50
    ∧ 0 ≤ (50 : Int) ∧ (50 : Int) ≤ 100 := by
  have h := claim4_range_invariant [Op.compute exampleOk] 3 50 (by rfl)
  exact ⟨by rfl, h.1, h.2⟩

/-- C5 counterexample: on an input whose commitment mismatches AND whose
accumulated score is out of range (all weights 3 gives score 150; true
commitment 50 but 49 supplied), `computeAndStoreScore` fails with
`RangeError`, not `CommitmentMismatch` — the range assertions run before the
commitment check, contrary to the claimed stage order. -/
theorem claim5_counterexample :
    calculateCommitment exampleOutOfRange.responses
      ≠ exampleOutOfRange.commitment
    ∧ (scoreCompute exampleOutOfRange.weights exampleOutOfRange.bias
        exampleOutOfRange.responses exampleOutOfRange.features < 0
      ∨ 100 < scoreCompute exampleOutOfRange.weights exampleOutOfRange.bias
        exampleOutOfRange.responses exampleOutOfRange.features)
    ∧ computeAndStoreScore exampleOutOfRange initState
      = .error PSError.RangeError
    ∧ PSError.RangeError ≠ PSError.CommitmentMismatch :=
  ⟨by decide, Or.inr (by decide), by rfl, by decide⟩

/-- C5 (amended): the circuit runs the score computation with its range
assertions first, then the commitment check, then the ledger writes: an
out-of-range score fails with `RangeError` whatever the commitment, a
mismatching commitment with an in-range score fails with
`CommitmentMismatch`, and the ledger write is never reached on a
mismatch. -/
theorem claim5_stage_order (a : Args) (st : LedgerState)
    (hsh : shapeOk a = true) :
    ((scoreCompute a.weights a.bias a.responses a.features < 0
      ∨ 100 < scoreCompute a.weights a.bias a.responses a.features) →
      computeAndStoreScore a st = .error .RangeError)
    ∧ (0 ≤ scoreCompute a.weights a.bias a.responses a.features →
       scoreCompute a.weights a.bias a.responses a.features ≤ 100 →
       commitmentOk a.responses a.commitment = false →
       computeAndStoreScore a st = .error .CommitmentMismatch
       ∧ step st (.compute a) = st) := by
  refine ⟨fun h => compute_range_error a st hsh h, fun h0 h100 hcm => ?_⟩
  have herr := compute_mismatch a st hsh h0 h100 hcm
  exact ⟨herr, compute_error_step a st herr⟩

theorem claim5_witness :
    shapeOk exampleMismatch = true
    ∧ computeAndStoreScore exampleOutOfRange initState
        = .error PSError.RangeError
    ∧ computeAndStoreScore exampleMismatch initState
        = .error PSError.CommitmentMismatch
    ∧ step initState (.compute exampleMismatch) = initState := by
  have hr := (claim5_stage_order exampleOutOfRange initState (by rfl)).1
    (Or.inr (by decide))
  have hm := (claim5_stage_order exampleMismatch initState (by rfl)).2
    (by decide) (by decide) (by rfl)
  exact ⟨by rfl, hr, hm.1, hm.2⟩

/-- C6: the commitment recomputed from a responses vector always verifies
against that same vector, and changing any single entry to a different value
makes verification against the original commitment fail. -/
theorem claim6_commitment_sensitivity (l : List Int) :
    commitmentOk l (calculateCommitment l) = true
    ∧ ∀ i v, i < l.length → v ≠ l.getD i 0 →
        commitmentOk (l.set i v) (calculateCommitment l) = false := by
  refine ⟨by simp [commitmentOk], fun i v hi hv => ?_⟩
  have hne : calculateCommitment (l.set i v) ≠ calculateCommitment l := by
    rw [calculateCommitment_eq_sum, calculateCommitment_eq_sum,
      sum_set l i v hi]
    omega
  exact beq_eq_false_iff_ne.mpr hne

theorem claim6_witness :
    commitmentOk [1, 2, 3] (calculateCommitment [1, 2, 3]) = true
    ∧ (1 : Nat) < ([1, 2, 3] : List Int).length
    ∧ (7 : Int) ≠ ([1, 2, 3] : List Int).getD 1 0
    ∧ commitmentOk (([1, 2, 3] : List Int).set 1 7)
        (calculateCommitment [1, 2, 3]) = false := by
  have h := claim6_commitment_sensitivity [1, 2, 3]
  exact ⟨h.1, by decide, by decide, h.2 1 7 (by decide) (by decide)⟩

/-- C7: `verifyScore` never mutates any ledger state, and after any run of
operations from the initial state it returns `true` exactly when the most
recent successful `computeAndStoreScore` for that identity stored the
expected score — and `false` for every expected score when the identity was
never successfully written. -/
theorem claim7_verify_pure_read (ops : List Op) (identity : Nat) (s : Int) :
    (verifyScore (run ops initState) identity s = true
      ↔ lastWrite ops initState identity = some s)
    ∧ ∀ (st : LedgerState) (i : Nat) (e : Int), step st (.verify i e) = st := by
  refine ⟨?_, fun st i e => rfl⟩
  unfold verifyScore
  rw [run_user_scores ops initState identity]
  cases hlw : lastWrite ops initState identity with
  | none => simp [initState]
  | some s' => simp [beq_iff_eq]

/-- C8: an invocation whose responses, features, or weights vector has the
wrong length is rejected with `ShapeError`, and the ledger is untouched. -/
theorem claim8_shape_rejection (a : Args) (st : LedgerState)
    (h : a.responses.length ≠ 50 ∨ a.features.length ≠ 4
      ∨ a.weights.length ≠ 54) :
    computeAndStoreScore a st = .error .ShapeError
    ∧ step st (.compute a) = st := by
  have hsh : shapeOk a = false := by
    cases hb : shapeOk a
    · rfl
    · exfalso
      simp only [shapeOk, Bool.and_eq_true, beq_iff_eq] at hb
      tauto
  have herr := compute_shape_error a st hsh
  exact ⟨herr, compute_error_step a st herr⟩

theorem claim8_witness :
    exampleBadShape.responses.length ≠ 50
    ∧ computeAndStoreScore exampleBadShape initState
        = .error PSError.ShapeError
    ∧ step initState (.compute exampleBadShape) = initState := by
  have h := claim8_shape_rejection exampleBadShape initState
    (Or.inl (by decide))
  exact ⟨by decide, h.1, h.2⟩

/-- C9: a successful invocation writes exactly the computed score and the
supplied commitment into the caller's own `user_scores` and
`score_commitments` entries; every other identity's entries, the
`ml_model_hash` cell, and the whole raw `survey_responses` map are
unchanged — raw responses, features, and weights are never persisted. -/
theorem claim9_frame (a : Args) (st : LedgerState)
    (h : succeeds (computeAndStoreScore a st) = true) :
    (step st (.compute a)).ml_model_hash = st.ml_model_hash
    ∧ (step st (.compute a)).survey_responses = st.survey_responses
    ∧ (step st (.compute a)).user_scores a.identity
        = some (scoreCompute a.weights a.bias a.responses a.features)
    ∧ (step st (.compute a)).score_commitments a.identity
        = some a.commitment
    ∧ ∀ identity, identity ≠ a.identity →
        (step st (.compute a)).user_scores identity
          = st.user_scores identity
        ∧ (step st (.compute a)).score_commitments identity
          = st.score_commitments identity := by
  cases hc : computeAndStoreScore a st with
  | error e => rw [hc] at h; simp [succeeds] at h
  | ok p =>
      obtain ⟨st', sc⟩ := p
      obtain ⟨-, -, -, hsc, -, hus, hcm, hh, hsr⟩ := compute_ok_spec a st hc
      have hstep : step st (.compute a) = st' := by simp [step, hc]
      rw [hstep]
      refine ⟨hh, hsr, ?_, ?_, fun i hi => ?_⟩
      · simp [hus, ← hsc]
      · simp [hcm]
      · constructor
        · simp [hus, hi]
        · simp [hcm, hi]

theorem claim9_witness :
    succeeds (computeAndStoreScore exampleOk initState) = true
    ∧ (step initState (.compute exampleOk)).ml_model_hash
        = initState.ml_model_hash
    ∧ (step initState (.compute exampleOk)).user_scores 9
        = initState.user_scores 9
    ∧ (step initState (.compute exampleOk)).user_scores exampleOk.identity
        = some (scoreCompute exampleOk.weights exampleOk.bias
            exampleOk.responses exampleOk.features) := by
  have h := claim9_frame exampleOk initState (by rfl)
  exact ⟨by rfl, h.1, (h.2.2.2.2 9 (by decide)).1, h.2.2.1⟩

/-- C10: the implemented commitment binding function is the arithmetic sum
of the responses, hence permutation-invariant — any reordering of the
committed responses yields the same commitment, and the commitment check in
`computeAndStoreScore` can therefore never fail on a permutation of the
originally committed vector. -/
theorem claim10_commitment_permutation_invariant (l₁ l₂ : List Int)
    (h : l₁.Perm l₂) :
    calculateCommitment l₁ = calculateCommitment l₂
    ∧ commitmentOk l₂ (calculateCommitment l₁) = true
    ∧ ∀ (a : Args) (st : LedgerState), a.responses = l₂ →
        a.commitment = calculateCommitment l₁ →
        computeAndStoreScore a st ≠ .error .CommitmentMismatch := by
  have hsum : calculateCommitment l₁ = calculateCommitment l₂ := by
    rw [calculateCommitment_eq_sum, calculateCommitment_eq_sum]
    exact h.sum_eq
  refine ⟨hsum, by simp [commitmentOk, hsum], fun a st hr hcm hbad => ?_⟩
  have hok : commitmentOk a.responses a.commitment = true := by
    simp [commitmentOk, hr, hcm, hsum]
  simp only [computeAndStoreScore] at hbad
  split_ifs at hbad with h1 h2 h3 h4
  · simp at hbad
  · simp at hbad
  · simp at hbad
  · rw [hok] at h4
    simp at h4

theorem claim10_witness :
    (([1, 2, 3] : List Int).Perm [3, 1, 2])
    ∧ calculateCommitment [1, 2, 3] = calculateCommitment [3, 1, 2]
    ∧ commitmentOk [3, 1, 2] (calculateCommitment [1, 2, 3]) = true := by
  have hp : (([1, 2, 3] : List Int).Perm [3, 1, 2]) := by decide
  have h := claim10_commitment_permutation_invariant [1, 2, 3] [3, 1, 2] hp
  exact ⟨hp, h.1, h.2.1⟩

end PsycheScore
